import Mathlib

/-!
Shallow embedding of `src/app_handle.rs`, floem's application-level event
coordinator (`ApplicationHandle`).

Modelling conventions:
* `HashMap` becomes an association list (`List (Nat × V)`) whose operations
  mirror `HashMap::get` / `insert` / `remove`; iteration order of the hash
  map is modelled as the list order (the source relies on no particular
  order).
* Monotonic `Instant`s are naturals, logical coordinates are rationals,
  and opaque payloads (window resources, keyboard/IME payloads, callbacks,
  view functions, menu ids) are naturals.
* Every interaction with an external collaborator (the winit event loop,
  a window's `WindowHandle` methods, timer callbacks, queued triggers) is
  recorded in an explicit `Effect` trace, in call order.
* `cfg(target_os = ...)` conditional compilation becomes a `macos : Bool`
  parameter (the `MenuAction` application event exists only on Linux,
  where `macos = false`).
* `Instant::now()` (in `handle_timer`) and the outcome of
  `WindowBuilder::build` (in `new_window`) are environment inputs and are
  passed as explicit arguments.
-/

namespace Floem

abbrev TimerToken := Nat

abbrev ActionId := Nat

abbrev Instant := Nat

abbrev WindowId := Nat

/-- The `Timer` held by the registry: token, absolute deadline, and the
callback, the latter modelled as an opaque action identifier. -/
structure Timer where
  token : TimerToken
  deadline : Instant
  action : ActionId
deriving DecidableEq, Repr

/-- The per-window state this core owns or reads: the platform resource
(`window`, cleared during teardown), the cached display scale and the
cached modifier state. -/
structure WindowHandle where
  window : Option Nat
  scale : ℚ
  modifiers : Nat
deriving DecidableEq, Repr

/-- Association-list model of `HashMap::get`. -/
def mapLookup {V : Type} (m : List (Nat × V)) (k : Nat) : Option V :=
  match m with
  | [] => none
  | (k', v) :: rest => if k' = k then some v else mapLookup rest k

/-- Association-list model of `HashMap::insert` (replaces the entry under
an existing key in place, otherwise appends). -/
def mapInsert {V : Type} (m : List (Nat × V)) (k : Nat) (v : V) : List (Nat × V) :=
  match m with
  | [] => [(k, v)]
  | (k', v') :: rest => if k' = k then (k, v) :: rest else (k', v') :: mapInsert rest k v

/-- Association-list model of `HashMap::remove`. -/
def mapRemove {V : Type} (m : List (Nat × V)) (k : Nat) : List (Nat × V) :=
  match m with
  | [] => []
  | (k', v') :: rest => if k' = k then rest else (k', v') :: mapRemove rest k

/-- The keys of the association list are pairwise distinct — the invariant
every `HashMap` enjoys. -/
def nodupKeys {V : Type} (m : List (Nat × V)) : Prop :=
  (m.map Prod.fst).Nodup

instance {V : Type} (m : List (Nat × V)) : Decidable (nodupKeys m) :=
  List.nodupDecidable _

/-- winit's `ControlFlow` as communicated by this core: `waitUntil` is the
only variant the source ever sets; `wait` (indefinite/on-event waiting) is
included so that statements about it can be expressed. -/
inductive ControlFlow
  | wait
  | waitUntil (d : Instant)
deriving DecidableEq, Repr

/-- The builder configuration accumulated by `new_window` before calling
`WindowBuilder::build`. -/
structure WindowBuilder where
  inner_size : Option (ℚ × ℚ)
  position : Option (ℚ × ℚ)
  title_hidden : Bool
  titlebar_transparent : Bool
  fullsize_content_view : Bool
  decorations : Bool
deriving DecidableEq, Repr

/-- One observable interaction with an external collaborator, in the order
the source performs it. -/
inductive Effect
  | setControlFlow (cf : ControlFlow)
  | exitLoop
  | invokeTimerAction (action : ActionId) (token : TimerToken)
  | buildWindow (builder : WindowBuilder)
  | createView (wid : WindowId) (view_fn : Nat)
  | destroyWindow (wid : WindowId)
  | processUpdate (wid : WindowId)
  | menuAction (wid : WindowId) (action_id : Nat)
  | notifyTrigger (t : Nat)
  | handleSize (wid : WindowId) (w h : ℚ)
  | handlePosition (wid : WindowId) (x y : ℚ)
  | handleFocused (wid : WindowId) (f : Bool)
  | handleKeyEvent (wid : WindowId) (k : Nat)
  | handleIme (wid : WindowId) (i : Nat)
  | handlePointerMove (wid : WindowId) (x y : ℚ)
  | handlePointerLeave (wid : WindowId)
  | handleMouseWheel (wid : WindowId) (d : Nat)
  | handleMouseInput (wid : WindowId) (button st : Nat)
  | handleScale (wid : WindowId) (sf : ℚ)
  | handleThemeChanged (wid : WindowId) (t : Nat)
  | handlePaint (wid : WindowId)
deriving DecidableEq, Repr

/-- Model of `WindowConfig`: the three fields of the configuration this core reads. -/
structure WindowConfig where
  size : Option (ℚ × ℚ)
  position : Option (ℚ × ℚ)
  show_titlebar : Option Bool
deriving DecidableEq, Repr

/-- Model of `AppUpdateEvent`, the application-scoped events drained in one pass.
The `newWindow` variant additionally carries the platform's response to
the `build` call (`buildResult`), an environment input; `menuAction`
exists only on Linux in the source. -/
inductive AppUpdateEvent
  | newWindow (view_fn : Nat) (config : Option WindowConfig) (buildResult : Option WindowId)
  | closeWindow (window_id : WindowId)
  | requestTimer (timer : Timer)
  | menuAction (window_id : WindowId) (action_id : Nat)
deriving DecidableEq, Repr

/-- Model of `UserEvent`: the three cross-thread wake-ups. -/
inductive UserEvent
  | appUpdate
  | idle
  | quitApp
deriving DecidableEq, Repr

/-- Model of `WindowEvent`: the winit window-scoped events; payloads are reduced to
what the source reads from them. -/
inductive WindowEvent
  | activationTokenDone
  | resized (w h : ℚ)
  | moved (x y : ℚ)
  | closeRequested
  | destroyed
  | droppedFile (f : Nat)
  | hoveredFile (f : Nat)
  | hoveredFileCancelled
  | focused (f : Bool)
  | keyboardInput (k : Nat)
  | modifiersChanged (m : Nat)
  | ime (i : Nat)
  | cursorMoved (x y : ℚ)
  | cursorEntered
  | cursorLeft
  | mouseWheel (d : Nat)
  | mouseInput (st button : Nat)
  | touchpadMagnify
  | smartMagnify
  | touchpadRotate
  | touchpadPressure
  | axisMotion
  | touch (t : Nat)
  | scaleFactorChanged (sf : ℚ)
  | themeChanged (t : Nat)
  | occluded (o : Bool)
  | menuAction (i : Nat)
  | redrawRequested
deriving DecidableEq, Repr

/-- Model of `ApplicationHandle`: the two registries. -/
structure ApplicationHandle where
  window_handles : List (WindowId × WindowHandle)
  timers : List (TimerToken × Timer)
deriving DecidableEq, Repr

/-- The builder configuration computed by `new_window` (lines 169-197 of
`app_handle.rs`) before the `build` call: the 800x600 fallback when a
requested dimension is exactly zero, the position, and the platform-split
title-bar handling. -/
def mk_builder (macos : Bool) (config : Option WindowConfig) : WindowBuilder :=
  let wb : WindowBuilder :=
    { inner_size := none, position := none, title_hidden := false,
      titlebar_transparent := false, fullsize_content_view := false, decorations := true }
  match config with
  | none => wb
  | some config =>
    let wb :=
      match config.size with
      | some size =>
        let size := if decide (size.1 = 0) || decide (size.2 = 0) then ((800 : ℚ), (600 : ℚ)) else size
        { wb with inner_size := some size }
      | none => wb
    let wb :=
      match config.position with
      | some pos => { wb with position := some pos }
      | none => wb
    let wb :=
      match config.show_titlebar with
      | some show_titlebar =>
        if macos then
          if !show_titlebar then
            { wb with title_hidden := true, titlebar_transparent := true,
                      fullsize_content_view := true }
          else wb
        else
          if !show_titlebar then { wb with decorations := false } else wb
      | none => wb
    wb

/-- Translation of `ApplicationHandle::new_window`: builds the configuration, attempts
platform construction (`buildResult` is the platform's answer), silently
drops the request on failure, and on success materialises the view once
and inserts the new entry keyed by the platform-assigned identifier. -/
def new_window (macos : Bool) (s : ApplicationHandle) (view_fn : Nat)
    (config : Option WindowConfig) (buildResult : Option WindowId) :
    ApplicationHandle × List Effect :=
  let builder := mk_builder macos config
  match buildResult with
  | none => (s, [Effect.buildWindow builder])
  | some window_id =>
    let handles := mapInsert s.window_handles window_id
      ({ window := some window_id, scale := 1, modifiers := 0 })
    ({ s with window_handles := handles },
     [Effect.buildWindow builder, Effect.createView window_id view_fn])

/-- Phase 1 of `ApplicationHandle::close_window` (lines 214-217): if the
entry is live, clear its platform-resource field and run its teardown
notification (`handle.destroy()`), leaving the entry in the registry. -/
def close_phase1 (handles : List (WindowId × WindowHandle)) (window_id : WindowId) :
    List (WindowId × WindowHandle) × List Effect :=
  match mapLookup handles window_id with
  | some handle =>
    (mapInsert handles window_id ({ handle with window := none }),
     [Effect.destroyWindow window_id])
  | none => (handles, [])

/-- Translation of `ApplicationHandle::close_window`: phase 1, then removal from the
registry, then (only off macOS) an event-loop-exit request when the
registry is empty after the removal. -/
def close_window (macos : Bool) (s : ApplicationHandle) (window_id : WindowId) :
    ApplicationHandle × List Effect :=
  let p1 := close_phase1 s.window_handles window_id
  let handles := mapRemove p1.1 window_id
  ({ s with window_handles := handles },
   p1.2 ++ if !macos && handles.isEmpty then [Effect.exitLoop] else [])

/-- The minimum deadline over the held timers,
`self.timers.values().map(|timer| timer.deadline).min()`. -/
def min_deadline : List (TimerToken × Timer) → Option Instant
  | [] => none
  | (_, t) :: rest =>
    match min_deadline rest with
    | none => some t.deadline
    | some d => some (min t.deadline d)

/-- Translation of `ApplicationHandle::fire_timer`: returns early when no timers are
held; otherwise sets the event loop's control flow to wait until the
minimum held deadline. -/
def fire_timer (s : ApplicationHandle) : List Effect :=
  if s.timers.isEmpty then []
  else
    match min_deadline s.timers with
    | some deadline => [Effect.setControlFlow (ControlFlow.waitUntil deadline)]
    | none => []

/-- Translation of `ApplicationHandle::request_timer`: insert keyed by the timer's token,
then recompute the wake deadline. -/
def request_timer (s : ApplicationHandle) (timer : Timer) : ApplicationHandle × List Effect :=
  let s := { s with timers := mapInsert s.timers timer.token timer }
  (s, fire_timer s)

/-- One step of the firing loop in `ApplicationHandle::handle_timer`:
`if let Some(timer) = self.timers.remove(&token) { (timer.action)(token) }`. -/
def fire_token (acc : ApplicationHandle × List Effect) (token : TimerToken) :
    ApplicationHandle × List Effect :=
  match mapLookup acc.1.timers token with
  | some timer =>
    ({ acc.1 with timers := mapRemove acc.1.timers token },
     acc.2 ++ [Effect.invokeTimerAction timer.action token])
  | none => acc

/-- The token collection of `ApplicationHandle::handle_timer` (lines
252-262): the tokens of the timers with `deadline <= now`. -/
def due_tokens (s : ApplicationHandle) (now : Instant) : List TimerToken :=
  (s.timers.filter (fun p => decide (p.2.deadline ≤ now))).map Prod.fst

/-- The `if !tokens.is_empty()` block of `ApplicationHandle::handle_timer`:
remove and invoke each due timer, then run the post-update pass over all
windows — skipped entirely when nothing is due. -/
def fired_state (s : ApplicationHandle) (now : Instant) : ApplicationHandle × List Effect :=
  if (due_tokens s now).isEmpty then (s, [])
  else
    let f := (due_tokens s now).foldl fire_token (s, [])
    (f.1, f.2 ++ f.1.window_handles.map (fun p => Effect.processUpdate p.1))

/-- Translation of `ApplicationHandle::handle_timer`: fire the due timers, then recompute
the wake deadline from the remainder. -/
def handle_timer (s : ApplicationHandle) (now : Instant) : ApplicationHandle × List Effect :=
  ((fired_state s now).1, (fired_state s now).2 ++ fire_timer (fired_state s now).1)

/-- Translation of `ApplicationHandle::idle`: drain the cross-thread trigger queue (the
drained content is the environment input `queue`), then run the
post-update pass over every live window. -/
def idle (s : ApplicationHandle) (queue : List Nat) : ApplicationHandle × List Effect :=
  (s, queue.map Effect.notifyTrigger ++ s.window_handles.map (fun p => Effect.processUpdate p.1))

/-- The `for event in events` loop of
`ApplicationHandle::handle_update_event`.  Note the `MenuAction` arm: on a
dead window identifier the source executes `return`, which abandons the
whole remaining batch, not just this event. -/
def process_update_events (macos : Bool) (s : ApplicationHandle) :
    List AppUpdateEvent → ApplicationHandle × List Effect
  | [] => (s, [])
  | event :: rest =>
    match event with
    | AppUpdateEvent.newWindow view_fn config buildResult =>
      let r := new_window macos s view_fn config buildResult
      let r2 := process_update_events macos r.1 rest
      (r2.1, r.2 ++ r2.2)
    | AppUpdateEvent.closeWindow window_id =>
      let r := close_window macos s window_id
      let r2 := process_update_events macos r.1 rest
      (r2.1, r.2 ++ r2.2)
    | AppUpdateEvent.requestTimer timer =>
      let r := request_timer s timer
      let r2 := process_update_events macos r.1 rest
      (r2.1, r.2 ++ r2.2)
    | AppUpdateEvent.menuAction window_id action_id =>
      match mapLookup s.window_handles window_id with
      | none => (s, [])
      | some _ =>
        let r2 := process_update_events macos s rest
        (r2.1, Effect.menuAction window_id action_id :: r2.2)

/-- Translation of `ApplicationHandle::handle_update_event`: the batch `events` is what
the swap-with-empty drain of `APP_UPDATE_EVENTS` produced. -/
def handle_update_event (macos : Bool) (s : ApplicationHandle)
    (events : List AppUpdateEvent) : ApplicationHandle × List Effect :=
  process_update_events macos s events

/-- Translation of `ApplicationHandle::handle_user_event`. -/
def handle_user_event (macos : Bool) (s : ApplicationHandle)
    (pending : List AppUpdateEvent) (queue : List Nat) :
    UserEvent → ApplicationHandle × List Effect
  | UserEvent.appUpdate => handle_update_event macos s pending
  | UserEvent.idle => idle s queue
  | UserEvent.quitApp => (s, [Effect.exitLoop])

/-- Translation of `ApplicationHandle::handle_window_event`: resolve the identifier
first — an unknown identifier drops the event — then dispatch on the
event.  Physical-to-logical conversion divides by the cached scale; the
scale-factor arm updates the cached scale (the collaborator stores it). -/
def handle_window_event (macos : Bool) (s : ApplicationHandle) (window_id : WindowId)
    (event : WindowEvent) : ApplicationHandle × List Effect :=
  match mapLookup s.window_handles window_id with
  | none => (s, [])
  | some window_handle =>
    match event with
    | WindowEvent.activationTokenDone => (s, [])
    | WindowEvent.resized w h =>
      (s, [Effect.handleSize window_id (w / window_handle.scale) (h / window_handle.scale)])
    | WindowEvent.moved x y =>
      (s, [Effect.handlePosition window_id (x / window_handle.scale) (y / window_handle.scale)])
    | WindowEvent.closeRequested => close_window macos s window_id
    | WindowEvent.destroyed => close_window macos s window_id
    | WindowEvent.droppedFile _ => (s, [])
    | WindowEvent.hoveredFile _ => (s, [])
    | WindowEvent.hoveredFileCancelled => (s, [])
    | WindowEvent.focused f => (s, [Effect.handleFocused window_id f])
    | WindowEvent.keyboardInput k => (s, [Effect.handleKeyEvent window_id k])
    | WindowEvent.modifiersChanged m =>
      let handles := mapInsert s.window_handles window_id ({ window_handle with modifiers := m })
      ({ s with window_handles := handles }, [])
    | WindowEvent.ime i => (s, [Effect.handleIme window_id i])
    | WindowEvent.cursorMoved x y =>
      (s, [Effect.handlePointerMove window_id (x / window_handle.scale) (y / window_handle.scale)])
    | WindowEvent.cursorEntered => (s, [])
    | WindowEvent.cursorLeft => (s, [Effect.handlePointerLeave window_id])
    | WindowEvent.mouseWheel d => (s, [Effect.handleMouseWheel window_id d])
    | WindowEvent.mouseInput st button => (s, [Effect.handleMouseInput window_id button st])
    | WindowEvent.touchpadMagnify => (s, [])
    | WindowEvent.smartMagnify => (s, [])
    | WindowEvent.touchpadRotate => (s, [])
    | WindowEvent.touchpadPressure => (s, [])
    | WindowEvent.axisMotion => (s, [])
    | WindowEvent.touch _ => (s, [])
    | WindowEvent.scaleFactorChanged sf =>
      let handles := mapInsert s.window_handles window_id ({ window_handle with scale := sf })
      ({ s with window_handles := handles }, [Effect.handleScale window_id sf])
    | WindowEvent.themeChanged t => (s, [Effect.handleThemeChanged window_id t])
    | WindowEvent.occluded _ => (s, [])
    | WindowEvent.menuAction i => (s, [Effect.menuAction window_id i])
    | WindowEvent.redrawRequested => (s, [Effect.handlePaint window_id])

/-- Looking up the key just inserted yields the inserted value. -/
theorem mapLookup_mapInsert_self {V : Type} (m : List (Nat × V)) (k : Nat) (v : V) :
    mapLookup (mapInsert m k v) k = some v := by
  induction m with
  | nil => simp [mapInsert, mapLookup]
  | cons p rest ih =>
    obtain ⟨a, b⟩ := p
    by_cases h : a = k
    · simp [mapInsert, mapLookup, h]
    · simp [mapInsert, mapLookup, h, ih]

/-- Insertion does not disturb the binding of any other key. -/
theorem mapLookup_mapInsert_ne {V : Type} (m : List (Nat × V)) (k k' : Nat) (v : V)
    (h : k' ≠ k) : mapLookup (mapInsert m k v) k' = mapLookup m k' := by
  induction m with
  | nil => simp [mapInsert, mapLookup, Ne.symm h]
  | cons p rest ih =>
    obtain ⟨a, b⟩ := p
    by_cases ha : a = k
    · simp [mapInsert, mapLookup, ha, Ne.symm h]
    · by_cases ha' : a = k'
      · simp [mapInsert, mapLookup, ha, ha', h]
      · simp [mapInsert, mapLookup, ha, ha', ih]

/-- Removal does not disturb the binding of any other key. -/
theorem mapLookup_mapRemove_ne {V : Type} (m : List (Nat × V)) (k k' : Nat)
    (h : k' ≠ k) : mapLookup (mapRemove m k) k' = mapLookup m k' := by
  induction m with
  | nil => rfl
  | cons p rest ih =>
    obtain ⟨a, b⟩ := p
    by_cases ha : a = k
    · simp [mapRemove, mapLookup, ha, Ne.symm h]
    · simp [mapRemove, mapLookup, ha, ih]

/-- Removing an absent key is the identity. -/
theorem mapRemove_lookup_none {V : Type} (m : List (Nat × V)) (k : Nat)
    (h : mapLookup m k = none) : mapRemove m k = m := by
  induction m with
  | nil => rfl
  | cons p rest ih =>
    obtain ⟨a, b⟩ := p
    by_cases ha : a = k
    · simp [mapLookup, ha] at h
    · simp [mapLookup, ha] at h
      simp [mapRemove, ha, ih h]

/-- A key outside the key list is unbound. -/
theorem mapLookup_eq_none {V : Type} (m : List (Nat × V)) (k : Nat)
    (h : k ∉ m.map Prod.fst) : mapLookup m k = none := by
  induction m with
  | nil => rfl
  | cons p rest ih =>
    obtain ⟨a, b⟩ := p
    simp only [List.map_cons, List.mem_cons] at h
    push_neg at h
    simp [mapLookup, Ne.symm h.1, ih h.2]

/-- Under distinct keys, a removed key is no longer bound. -/
theorem mapLookup_mapRemove_self {V : Type} (m : List (Nat × V)) (k : Nat)
    (h : nodupKeys m) : mapLookup (mapRemove m k) k = none := by
  induction m with
  | nil => rfl
  | cons p rest ih =>
    obtain ⟨a, b⟩ := p
    simp only [nodupKeys, List.map_cons, List.nodup_cons] at h
    by_cases ha : a = k
    · subst ha
      simp only [mapRemove, if_pos rfl]
      exact mapLookup_eq_none rest a h.1
    · simp [mapRemove, mapLookup, ha]
      exact ih h.2

/-- Under distinct keys, membership determines the lookup result. -/
theorem mapLookup_of_mem {V : Type} (m : List (Nat × V)) (p : Nat × V)
    (hn : nodupKeys m) (hp : p ∈ m) : mapLookup m p.1 = some p.2 := by
  induction m with
  | nil => cases hp
  | cons q rest ih =>
    obtain ⟨a, b⟩ := q
    simp only [nodupKeys, List.map_cons, List.nodup_cons] at hn
    rcases List.mem_cons.mp hp with h1 | h1
    · subst h1
      simp [mapLookup]
    · have hne : a ≠ p.1 := by
        intro he
        exact hn.1 (he ▸ List.mem_map_of_mem Prod.fst h1)
      simp [mapLookup, hne]
      exact ih hn.2 h1

/-- Inserting under a key that is already bound keeps the size. -/
theorem length_mapInsert_mem {V : Type} (m : List (Nat × V)) (k : Nat) (v : V)
    (h : (mapLookup m k).isSome = true) : (mapInsert m k v).length = m.length := by
  induction m with
  | nil => simp [mapLookup] at h
  | cons p rest ih =>
    obtain ⟨a, b⟩ := p
    by_cases ha : a = k
    · simp [mapInsert, ha]
    · simp only [mapLookup, if_neg ha] at h
      simp [mapInsert, ha, ih h]

/-- Any key of the map after an insertion is the inserted key or an old key. -/
theorem mem_keys_mapInsert {V : Type} (m : List (Nat × V)) (k x : Nat) (v : V)
    (h : x ∈ (mapInsert m k v).map Prod.fst) : x = k ∨ x ∈ m.map Prod.fst := by
  induction m with
  | nil =>
    simp [mapInsert] at h
    exact Or.inl h
  | cons p rest ih =>
    obtain ⟨a, b⟩ := p
    by_cases ha : a = k
    · simp only [mapInsert, if_pos ha, List.map_cons, List.mem_cons] at h
      rcases h with h | h
      · exact Or.inl h
      · exact Or.inr (by simp [h])
    · simp only [mapInsert, if_neg ha, List.map_cons, List.mem_cons] at h
      rcases h with h | h
      · exact Or.inr (by simp [h])
      · rcases ih h with h' | h'
        · exact Or.inl h'
        · exact Or.inr (by simp [h'])

/-- Insertion preserves distinctness of the keys. -/
theorem nodupKeys_mapInsert {V : Type} (m : List (Nat × V)) (k : Nat) (v : V)
    (h : nodupKeys m) : nodupKeys (mapInsert m k v) := by
  induction m with
  | nil => simp [mapInsert, nodupKeys]
  | cons p rest ih =>
    obtain ⟨a, b⟩ := p
    simp only [nodupKeys, List.map_cons, List.nodup_cons] at h
    by_cases ha : a = k
    · subst ha
      simpa [mapInsert, nodupKeys] using h
    · simp only [mapInsert, if_neg ha, nodupKeys, List.map_cons, List.nodup_cons]
      refine ⟨fun hmem => ?_, ih h.2⟩
      rcases mem_keys_mapInsert rest k a v hmem with h' | h'
      · exact ha h'
      · exact h.1 h'

/-- Successive removals, as performed by the firing loop. -/
def removeAll {V : Type} (m : List (Nat × V)) (ks : List Nat) : List (Nat × V) :=
  ks.foldl mapRemove m

/-- Removing keys that all differ from the head leaves the head in place. -/
theorem removeAll_cons_ne {V : Type} (m : List (Nat × V)) (a : Nat) (b : V) (ks : List Nat)
    (h : ∀ t ∈ ks, t ≠ a) :
    removeAll ((a, b) :: m) ks = (a, b) :: removeAll m ks := by
  induction ks generalizing m with
  | nil => rfl
  | cons t ks ih =>
    have ht : ¬(a = t) := fun he => h t (List.mem_cons_self _ _) he.symm
    show removeAll (mapRemove ((a, b) :: m) t) ks = (a, b) :: removeAll m (t :: ks)
    rw [show mapRemove ((a, b) :: m) t = (a, b) :: mapRemove m t by simp [mapRemove, ht]]
    exact ih (mapRemove m t) (fun u hu => h u (List.mem_cons_of_mem _ hu))

/-- Under distinct keys, removing exactly the keys selected by a filter
yields the complementary filter, order preserved. -/
theorem removeAll_filter {V : Type} (m : List (Nat × V)) (f : Nat × V → Bool)
    (h : nodupKeys m) :
    removeAll m ((m.filter f).map Prod.fst) = m.filter (fun p => !f p) := by
  induction m with
  | nil => rfl
  | cons p rest ih =>
    obtain ⟨a, b⟩ := p
    simp only [nodupKeys, List.map_cons, List.nodup_cons] at h
    by_cases hf : f (a, b)
    · rw [show ((a, b) :: rest).filter f = (a, b) :: rest.filter f by simp [hf]]
      rw [show (((a, b) :: rest.filter f).map Prod.fst) = a :: (rest.filter f).map Prod.fst by rfl]
      show removeAll (mapRemove ((a, b) :: rest) a) ((rest.filter f).map Prod.fst) =
        ((a, b) :: rest).filter (fun p => !f p)
      rw [show mapRemove ((a, b) :: rest) a = rest by simp [mapRemove]]
      rw [ih h.2]
      simp [hf]
    · rw [show ((a, b) :: rest).filter f = rest.filter f by simp [hf]]
      rw [removeAll_cons_ne rest a b _ ?hne]
      · rw [ih h.2]
        simp [hf]
      · intro t ht he
        apply h.1
        subst he
        have : t ∈ (rest.filter f).map Prod.fst := ht
        rcases List.mem_map.mp this with ⟨q, hq, hq2⟩
        exact hq2 ▸ List.mem_map_of_mem Prod.fst (List.mem_of_mem_filter hq)

/-- Pointwise-equal selector functions give the same filterMap. -/
theorem filterMap_ext_mem {α β : Type} (l : List α) (f g : α → Option β)
    (h : ∀ x ∈ l, f x = g x) : l.filterMap f = l.filterMap g := by
  induction l with
  | nil => rfl
  | cons a l ih =>
    simp only [List.filterMap_cons, h a (List.mem_cons_self _ _),
      ih (fun x hx => h x (List.mem_cons_of_mem _ hx))]

/-- Looking each first component back up in a map that binds every listed
pair collapses the filterMap to a plain map. -/
theorem filterMap_lookup_map {V α : Type} (m l : List (Nat × V)) (g : Nat → V → α)
    (h : ∀ p ∈ l, mapLookup m p.1 = some p.2) :
    (l.map Prod.fst).filterMap (fun t => (mapLookup m t).map (fun tm => g t tm)) =
      l.map (fun p => g p.1 p.2) := by
  induction l with
  | nil => rfl
  | cons p l ih =>
    simp only [List.map_cons, List.filterMap_cons, h p (List.mem_cons_self _ _)]
    rw [ih (fun q hq => h q (List.mem_cons_of_mem _ hq))]
    rfl

/-- Characterization of the firing loop of `handle_timer`: over distinct
tokens that are all bound, it removes exactly those tokens and appends one
action invocation per token, in order. -/
theorem foldl_fire_token (ts : List TimerToken) (s : ApplicationHandle) (effs : List Effect)
    (hnd : ts.Nodup) (hall : ∀ t ∈ ts, (mapLookup s.timers t).isSome = true) :
    ts.foldl fire_token (s, effs) =
      ({ s with timers := removeAll s.timers ts },
       effs ++ ts.filterMap
         (fun t => (mapLookup s.timers t).map
           (fun tm => Effect.invokeTimerAction tm.action t))) := by
  induction ts generalizing s effs with
  | nil => simp [removeAll]
  | cons t ts ih =>
    obtain ⟨hnotmem, hnd'⟩ := List.nodup_cons.mp hnd
    obtain ⟨tm, htm⟩ := Option.isSome_iff_exists.mp (hall t (List.mem_cons_self _ _))
    have hstep : fire_token (s, effs) t =
        ({ s with timers := mapRemove s.timers t },
         effs ++ [Effect.invokeTimerAction tm.action t]) := by
      simp [fire_token, htm]
    have hall' : ∀ u ∈ ts, (mapLookup (mapRemove s.timers t) u).isSome = true := by
      intro u hu
      rw [mapLookup_mapRemove_ne s.timers t u (fun he => hnotmem (he ▸ hu))]
      exact hall u (List.mem_cons_of_mem _ hu)
    have hfm : ts.filterMap (fun u => (mapLookup (mapRemove s.timers t) u).map
          (fun tu => Effect.invokeTimerAction tu.action u)) =
        ts.filterMap (fun u => (mapLookup s.timers u).map
          (fun tu => Effect.invokeTimerAction tu.action u)) :=
      filterMap_ext_mem _ _ _ (fun u hu => by
        rw [mapLookup_mapRemove_ne s.timers t u (fun he => hnotmem (he ▸ hu))])
    rw [List.foldl_cons, hstep, ih ({ s with timers := mapRemove s.timers t }) _ hnd' hall']
    refine Prod.ext rfl ?_
    show (effs ++ [Effect.invokeTimerAction tm.action t]) ++
        ts.filterMap (fun u => (mapLookup (mapRemove s.timers t) u).map
          (fun tu => Effect.invokeTimerAction tu.action u)) =
      effs ++ (t :: ts).filterMap (fun u => (mapLookup s.timers u).map
          (fun tu => Effect.invokeTimerAction tu.action u))
    rw [hfm]
    simp [List.filterMap_cons, htm]

/-- An empty minimum means no timers are held. -/
theorem min_deadline_eq_none (ts : List (TimerToken × Timer))
    (h : min_deadline ts = none) : ts = [] := by
  cases ts with
  | nil => rfl
  | cons p rest =>
    obtain ⟨tok, t⟩ := p
    cases hr : min_deadline rest <;> simp [min_deadline, hr] at h

/-- The computed deadline of a nonempty timer list is a lower bound of the
held deadlines and is attained by one of them. -/
theorem min_deadline_spec (ts : List (TimerToken × Timer)) (hne : ts ≠ []) :
    ∃ d, min_deadline ts = some d ∧ (∀ p ∈ ts, d ≤ p.2.deadline) ∧
      ∃ p ∈ ts, p.2.deadline = d := by
  induction ts with
  | nil => cases hne rfl
  | cons p rest ih =>
    obtain ⟨tok, t⟩ := p
    cases hr : min_deadline rest with
    | none =>
      have hrest : rest = [] := min_deadline_eq_none rest hr
      subst hrest
      refine ⟨t.deadline, by simp [min_deadline], ?_, ?_⟩
      · intro q hq
        rcases List.mem_singleton.mp hq with rfl
        exact le_refl _
      · exact ⟨(tok, t), List.mem_singleton.mpr rfl, rfl⟩
    | some d =>
      have hrne : rest ≠ [] := by
        intro hnil
        rw [hnil] at hr
        cases hr
      obtain ⟨d', hd', hle, q, hq, hqd⟩ := ih hrne
      rw [hr] at hd'
      obtain rfl : d' = d := (Option.some.inj hd').symm
      refine ⟨min t.deadline d', by simp [min_deadline, hr], ?_, ?_⟩
      · intro q' hq'
        rcases List.mem_cons.mp hq' with h1 | h1
        · rw [h1]
          exact min_le_left _ _
        · exact le_trans (min_le_right _ _) (hle q' h1)
      · rcases le_total t.deadline d' with hcase | hcase
        · exact ⟨(tok, t), List.mem_cons_self _ _, (min_eq_left hcase).symm⟩
        · exact ⟨q, List.mem_cons_of_mem _ hq, hqd.trans (min_eq_right hcase).symm⟩

/-- C1 (amended): after each timer-registry mutation the recomputed wake
communication is exactly one control-flow update carrying the minimum
deadline over the held timers, whenever at least one timer is held; with
no timers held the code communicates nothing at all (it returns early and
does not reset the control flow to indefinite waiting).  Both mutation
paths end in this recomputation: a timer request's trace is exactly the
recomputation on the post-insert state, and a firing pass's trace ends
with the recomputation on the post-firing state. -/
theorem fire_timer_wake_is_min (s : ApplicationHandle) (t : Timer) (now : Instant) :
    (s.timers.isEmpty = true → fire_timer s = []) ∧
    (s.timers.isEmpty = false →
      fire_timer s =
        [Effect.setControlFlow (ControlFlow.waitUntil ((min_deadline s.timers).getD 0))] ∧
      (∀ p ∈ s.timers, (min_deadline s.timers).getD 0 ≤ p.2.deadline) ∧
      (∃ p ∈ s.timers, p.2.deadline = (min_deadline s.timers).getD 0)) ∧
    (request_timer s t).2 = fire_timer (request_timer s t).1 ∧
    (handle_timer s now).2 = (fired_state s now).2 ++ fire_timer (handle_timer s now).1 := by
  refine ⟨fun he => by simp [fire_timer, he], fun he => ?_, rfl, rfl⟩
  have hne : s.timers ≠ [] := by
    intro hnil
    rw [hnil] at he
    cases he
  obtain ⟨d, hd, hle, hmem⟩ := min_deadline_spec s.timers hne
  have hgd : (min_deadline s.timers).getD 0 = d := by rw [hd]; rfl
  rw [hgd]
  exact ⟨by simp [fire_timer, he, hd], hle, hmem⟩

/-- The three-timer state of the spec's scenario: tokens 1, 2, 3 with
deadlines 50, 10, 30. -/
def stA : ApplicationHandle :=
  { window_handles := [],
    timers := [(1, { token := 1, deadline := 50, action := 10 }),
               (2, { token := 2, deadline := 10, action := 20 }),
               (3, { token := 3, deadline := 30, action := 30 })] }

/-- Witness for the C1 theorem: on the three-timer state the communicated
wake deadline is 10, the minimum. -/
theorem fire_timer_wake_is_min_witness :
    fire_timer stA = [Effect.setControlFlow (ControlFlow.waitUntil 10)] :=
  ((fire_timer_wake_is_min stA { token := 0, deadline := 0, action := 0 } 0).2.1 rfl).1

/-- C1 counterexample: with no timers held, the recomputation communicates
nothing to the platform loop — in particular it does not tell it to wait
indefinitely/on-event, contrary to the claim; a previously communicated
deadline would simply be left standing. -/
theorem fire_timer_empty_silent :
    fire_timer ({ window_handles := [], timers := [] }) = [] ∧
    Effect.setControlFlow ControlFlow.wait ∉
      fire_timer ({ window_handles := [], timers := [] }) :=
  ⟨rfl, by simp [fire_timer]⟩

/-- C2: firing at `now` removes from the registry exactly the timers whose
deadline is at or before `now` (the not-due timers survive unchanged, in
order), and the trace invokes each removed timer's action exactly once
with its token — followed by the post-update pass when anything fired and
the wake recomputation on the remaining timers; the window registry is
untouched. -/
theorem handle_timer_fires_due (s : ApplicationHandle) (now : Instant)
    (h : nodupKeys s.timers) :
    (handle_timer s now).1.timers =
      s.timers.filter (fun p => !decide (p.2.deadline ≤ now)) ∧
    (handle_timer s now).1.window_handles = s.window_handles ∧
    (handle_timer s now).2 =
      (s.timers.filter (fun p => decide (p.2.deadline ≤ now))).map
          (fun p => Effect.invokeTimerAction p.2.action p.1)
        ++ (if (s.timers.filter (fun p => decide (p.2.deadline ≤ now))).isEmpty then []
            else s.window_handles.map (fun p => Effect.processUpdate p.1))
        ++ fire_timer
            ({ s with timers := s.timers.filter (fun p => !decide (p.2.deadline ≤ now)) }) := by
  by_cases hdue : (s.timers.filter (fun p => decide (p.2.deadline ≤ now))).isEmpty = true
  · have hnil : s.timers.filter (fun p => decide (p.2.deadline ≤ now)) = [] := by
      simpa using hdue
    have hkeep : s.timers.filter (fun p => !decide (p.2.deadline ≤ now)) = s.timers := by
      rw [List.filter_eq_self]
      intro p hp
      have := List.filter_eq_nil_iff.mp hnil p hp
      simpa using this
    have hfs : fired_state s now = (s, []) := by
      simp [fired_state, due_tokens, hnil]
    have hself : ({ s with timers := s.timers } : ApplicationHandle) = s := rfl
    refine ⟨?_, ?_, ?_⟩
    · rw [show (handle_timer s now).1 = (fired_state s now).1 from rfl, hfs, hkeep]
    · rw [show (handle_timer s now).1 = (fired_state s now).1 from rfl, hfs]
    · rw [show (handle_timer s now).2 =
        (fired_state s now).2 ++ fire_timer (fired_state s now).1 from rfl, hfs]
      rw [hnil, hkeep, hself]
      simp
  · have hnodup : (due_tokens s now).Nodup := by
      have hsub : List.Sublist
          ((s.timers.filter (fun p => decide (p.2.deadline ≤ now))).map Prod.fst)
          (s.timers.map Prod.fst) :=
        List.Sublist.map Prod.fst (List.filter_sublist _)
      exact List.Nodup.sublist hsub h
    have hall : ∀ u ∈ due_tokens s now, (mapLookup s.timers u).isSome = true := by
      intro u hu
      rcases List.mem_map.mp hu with ⟨p, hp, hpu⟩
      rw [← hpu, mapLookup_of_mem s.timers p h (List.mem_of_mem_filter hp)]
      rfl
    have hfold := foldl_fire_token (due_tokens s now) s [] hnodup hall
    have hrm : removeAll s.timers (due_tokens s now) =
        s.timers.filter (fun p => !decide (p.2.deadline ≤ now)) :=
      removeAll_filter s.timers (fun p => decide (p.2.deadline ≤ now)) h
    have hinv : (due_tokens s now).filterMap
        (fun u => (mapLookup s.timers u).map
          (fun tm => Effect.invokeTimerAction tm.action u)) =
        (s.timers.filter (fun p => decide (p.2.deadline ≤ now))).map
          (fun p => Effect.invokeTimerAction p.2.action p.1) :=
      filterMap_lookup_map s.timers _ (fun u tm => Effect.invokeTimerAction tm.action u)
        (fun p hp => mapLookup_of_mem s.timers p h (List.mem_of_mem_filter hp))
    have hfs : fired_state s now =
        (({ s with timers := s.timers.filter (fun p => !decide (p.2.deadline ≤ now)) }),
         (s.timers.filter (fun p => decide (p.2.deadline ≤ now))).map
             (fun p => Effect.invokeTimerAction p.2.action p.1)
           ++ s.window_handles.map (fun p => Effect.processUpdate p.1)) := by
      rw [fired_state, if_neg (by simpa [due_tokens] using hdue), hfold, hrm]
      rw [hinv]
      simp
    refine ⟨?_, ?_, ?_⟩
    · rw [show (handle_timer s now).1 = (fired_state s now).1 from rfl, hfs]
    · rw [show (handle_timer s now).1 = (fired_state s now).1 from rfl, hfs]
    · rw [show (handle_timer s now).2 =
        (fired_state s now).2 ++ fire_timer (fired_state s now).1 from rfl, hfs]
      rw [if_neg hdue]

/-- Witness for the C2 theorem: the spec's scenario — deadlines 50, 10,
30; firing at 35 removes tokens 2 and 3, invoking their actions once
each, and leaves the deadline-50 timer. -/
theorem handle_timer_fires_due_witness :
    (handle_timer stA 35).1.timers =
      stA.timers.filter (fun p => !decide (p.2.deadline ≤ 35)) ∧
    (handle_timer stA 35).1.window_handles = stA.window_handles ∧
    (handle_timer stA 35).2 =
      (stA.timers.filter (fun p => decide (p.2.deadline ≤ 35))).map
          (fun p => Effect.invokeTimerAction p.2.action p.1)
        ++ (if (stA.timers.filter (fun p => decide (p.2.deadline ≤ 35))).isEmpty then []
            else stA.window_handles.map (fun p => Effect.processUpdate p.1))
        ++ fire_timer
            ({ stA with timers := stA.timers.filter (fun p => !decide (p.2.deadline ≤ 35)) }) :=
  handle_timer_fires_due stA 35 (by decide)

/-- C3: dispatching any window-scoped event against an identifier with no
live entry is a complete no-op: the state is returned unchanged, no entry
is created and no effect is produced. -/
theorem handle_window_event_unknown_noop (macos : Bool) (s : ApplicationHandle)
    (window_id : WindowId) (event : WindowEvent)
    (h : mapLookup s.window_handles window_id = none) :
    handle_window_event macos s window_id event = (s, []) := by
  unfold handle_window_event
  rw [h]

/-- Witness for the C3 theorem: a redraw for an unknown window on an empty
registry. -/
theorem handle_window_event_unknown_noop_witness :
    handle_window_event false ({ window_handles := [], timers := [] }) 0
      WindowEvent.redrawRequested = (({ window_handles := [], timers := [] }), []) :=
  handle_window_event_unknown_noop false _ 0 WindowEvent.redrawRequested rfl

/-- C4: closing a live window is two-phase and in this order: phase 1
clears the entry's platform-resource field and emits its teardown
notification while the entry is still present (lookup still reaches it,
with the resource cleared), and only afterwards is the entry removed; the
teardown notification heads the close's effect trace. -/
theorem close_window_two_phase (macos : Bool) (s : ApplicationHandle)
    (window_id : WindowId) (handle : WindowHandle)
    (h : mapLookup s.window_handles window_id = some handle) :
    mapLookup (close_phase1 s.window_handles window_id).1 window_id =
      some ({ handle with window := none }) ∧
    (close_phase1 s.window_handles window_id).2 = [Effect.destroyWindow window_id] ∧
    (close_window macos s window_id).1.window_handles =
      mapRemove (close_phase1 s.window_handles window_id).1 window_id ∧
    (close_window macos s window_id).2.head? = some (Effect.destroyWindow window_id) := by
  have h1 : close_phase1 s.window_handles window_id =
      (mapInsert s.window_handles window_id ({ handle with window := none }),
       [Effect.destroyWindow window_id]) := by
    simp [close_phase1, h]
  refine ⟨?_, ?_, rfl, ?_⟩
  · rw [h1]
    exact mapLookup_mapInsert_self _ _ _
  · rw [h1]
  · show ((close_phase1 s.window_handles window_id).2 ++
      (if !macos && (mapRemove (close_phase1 s.window_handles window_id).1
          window_id).isEmpty then [Effect.exitLoop] else [])).head? =
      some (Effect.destroyWindow window_id)
    rw [h1]
    rfl

/-- The one-window state used by several witnesses: window identifier 0,
live platform resource, scale 1. -/
def stB : ApplicationHandle :=
  { window_handles := [(0, { window := some 0, scale := 1, modifiers := 0 })], timers := [] }

/-- Witness for the C4 theorem on the one-window state. -/
theorem close_window_two_phase_witness :
    mapLookup (close_phase1 stB.window_handles 0).1 0 =
      some ({ window := none, scale := 1, modifiers := 0 }) ∧
    (close_phase1 stB.window_handles 0).2 = [Effect.destroyWindow 0] ∧
    (close_window false stB 0).1.window_handles =
      mapRemove (close_phase1 stB.window_handles 0).1 0 ∧
    (close_window false stB 0).2.head? = some (Effect.destroyWindow 0) :=
  close_window_two_phase false stB 0 ({ window := some 0, scale := 1, modifiers := 0 }) rfl

/-- C5: shutdown policy — off macOS, a close that leaves the registry
empty requests event-loop exit; on macOS a close never requests exit; and
a quit request exits unconditionally on either platform, whatever the
window count. -/
theorem shutdown_policy (s : ApplicationHandle) (window_id : WindowId)
    (pending : List AppUpdateEvent) (queue : List Nat)
    (hempty : (close_window false s window_id).1.window_handles = []) :
    Effect.exitLoop ∈ (close_window false s window_id).2 ∧
    Effect.exitLoop ∉ (close_window true s window_id).2 ∧
    handle_user_event false s pending queue UserEvent.quitApp = (s, [Effect.exitLoop]) ∧
    handle_user_event true s pending queue UserEvent.quitApp = (s, [Effect.exitLoop]) := by
  refine ⟨?_, ?_, rfl, rfl⟩
  · have hh : mapRemove (close_phase1 s.window_handles window_id).1 window_id = [] := hempty
    show Effect.exitLoop ∈ (close_phase1 s.window_handles window_id).2 ++
      (if !false && (mapRemove (close_phase1 s.window_handles window_id).1
          window_id).isEmpty then [Effect.exitLoop] else [])
    rw [hh]
    simp
  · show Effect.exitLoop ∉ (close_phase1 s.window_handles window_id).2 ++
      (if !true && (mapRemove (close_phase1 s.window_handles window_id).1
          window_id).isEmpty then [Effect.exitLoop] else [])
    cases hl : mapLookup s.window_handles window_id with
    | none => simp [close_phase1, hl]
    | some w => simp [close_phase1, hl]

/-- Witness for the C5 theorem: closing the only window of the one-window
state. -/
theorem shutdown_policy_witness :
    Effect.exitLoop ∈ (close_window false stB 0).2 ∧
    Effect.exitLoop ∉ (close_window true stB 0).2 ∧
    handle_user_event false stB [] [] UserEvent.quitApp = (stB, [Effect.exitLoop]) ∧
    handle_user_event true stB [] [] UserEvent.quitApp = (stB, [Effect.exitLoop]) :=
  shutdown_policy stB 0 [] [] (by decide)

/-- C6 counterexample: on the one-window state, off macOS, the second
close of the already-removed identifier is not free of observable
effects — the handler re-checks emptiness after the vacuous removal and
issues another event-loop-exit request. -/
theorem close_second_close_not_silent :
    (close_window false (close_window false stB 0).1 0).2 = [Effect.exitLoop] ∧
    (close_window false (close_window false stB 0).1 0).2 ≠ ([] : List Effect) := by
  refine ⟨by decide, by decide⟩

/-- C6 (amended): closing an identifier with no live entry (which covers a
repeated close, since after a close the identifier no longer resolves —
the last conjunct) leaves the application state unchanged and produces no
effect, except that off macOS the handler still requests event-loop exit
when the registry is empty; with any window remaining it is a complete
no-op. -/
theorem close_unknown_silent (macos : Bool) (s s' : ApplicationHandle)
    (window_id : WindowId)
    (h : mapLookup s.window_handles window_id = none)
    (hn : nodupKeys s'.window_handles) :
    (close_window macos s window_id).1 = s ∧
    (close_window macos s window_id).2 =
      (if !macos && s.window_handles.isEmpty then [Effect.exitLoop] else []) ∧
    mapLookup (close_window macos s' window_id).1.window_handles window_id = none := by
  have h1 : close_phase1 s.window_handles window_id = (s.window_handles, []) := by
    simp [close_phase1, h]
  have hrm : mapRemove s.window_handles window_id = s.window_handles :=
    mapRemove_lookup_none _ _ h
  have hcw : close_window macos s window_id =
      (s, if !macos && s.window_handles.isEmpty then [Effect.exitLoop] else []) := by
    simp [close_window, h1, hrm]
  refine ⟨by rw [hcw], by rw [hcw], ?_⟩
  cases hl : mapLookup s'.window_handles window_id with
  | none =>
    have h1' : close_phase1 s'.window_handles window_id = (s'.window_handles, []) := by
      simp [close_phase1, hl]
    show mapLookup (mapRemove (close_phase1 s'.window_handles window_id).1
      window_id) window_id = none
    rw [h1']
    exact mapLookup_mapRemove_self _ _ hn
  | some w =>
    have h1' : close_phase1 s'.window_handles window_id =
        (mapInsert s'.window_handles window_id ({ w with window := none }),
         [Effect.destroyWindow window_id]) := by
      simp [close_phase1, hl]
    show mapLookup (mapRemove (close_phase1 s'.window_handles window_id).1
      window_id) window_id = none
    rw [h1']
    exact mapLookup_mapRemove_self _ _ (nodupKeys_mapInsert _ _ _ hn)

/-- Witness for the amended C6 theorem: identifier 5 was never live in the
one-window state. -/
theorem close_unknown_silent_witness :
    (close_window false stB 5).1 = stB ∧
    (close_window false stB 5).2 =
      (if !false && stB.window_handles.isEmpty then [Effect.exitLoop] else []) ∧
    mapLookup (close_window false stB 5).1.window_handles 5 = none :=
  close_unknown_silent false stB stB 5 rfl (by decide)

/-- C7: the code violates the claim — in the drain loop, the dead-window
menu-action arm executes a bare return, abandoning the whole remaining
batch.  With an empty registry, a stale menu action followed by a timer
request leaves the timer unregistered (first conjunct), while the timer
request alone registers it (second conjunct). -/
theorem menu_action_drops_rest_of_batch :
    handle_update_event false ({ window_handles := [], timers := [] })
        [AppUpdateEvent.menuAction 7 0,
         AppUpdateEvent.requestTimer ({ token := 1, deadline := 5, action := 2 })] =
      (({ window_handles := [], timers := [] }), []) ∧
    (handle_update_event false ({ window_handles := [], timers := [] })
        [AppUpdateEvent.requestTimer ({ token := 1, deadline := 5, action := 2 })]).1.timers =
      [(1, ({ token := 1, deadline := 5, action := 2 } : Timer))] :=
  ⟨rfl, rfl⟩

/-- C8: the effective size handed to platform window construction is the
configured size unless either dimension is exactly zero, in which case it
is the 800x600 logical fallback; the builder handed to construction heads
the request's trace whether or not construction succeeds. -/
theorem new_window_size_fallback (macos : Bool) (s : ApplicationHandle) (view_fn : Nat)
    (w h : ℚ) (pos : Option (ℚ × ℚ)) (st : Option Bool) (buildResult : Option WindowId) :
    (new_window macos s view_fn
        (some ({ size := some (w, h), position := pos, show_titlebar := st }))
        buildResult).2.head? =
      some (Effect.buildWindow (mk_builder macos
        (some ({ size := some (w, h), position := pos, show_titlebar := st })))) ∧
    (mk_builder macos
        (some ({ size := some (w, h), position := pos, show_titlebar := st }))).inner_size =
      some (if w = 0 ∨ h = 0 then ((800 : ℚ), (600 : ℚ)) else (w, h)) := by
  constructor
  · cases buildResult <;> rfl
  · by_cases hw : w = 0 <;> by_cases hh : h = 0 <;>
      rcases pos with _ | p <;> rcases st with _ | b <;> cases macos <;>
      simp [mk_builder, hw, hh, apply_ite]

/-- C9: when platform window construction fails, the request is dropped
silently: the application state is returned unchanged (no entry is
inserted, the view closure is never invoked) and nothing beyond the
construction attempt itself is observable. -/
theorem new_window_build_failure (macos : Bool) (s : ApplicationHandle) (view_fn : Nat)
    (config : Option WindowConfig) :
    new_window macos s view_fn config none =
      (s, [Effect.buildWindow (mk_builder macos config)]) := rfl

/-- C10: requesting a timer whose token is already registered replaces the
held timer: the registry size is unchanged, the token now maps exactly to
the new timer, every other token's binding is untouched, the keys stay
distinct, and the window registry is untouched. -/
theorem request_timer_replaces (s : ApplicationHandle) (t : Timer)
    (hn : nodupKeys s.timers) (hp : (mapLookup s.timers t.token).isSome = true) :
    ((request_timer s t).1.timers).length = s.timers.length ∧
    mapLookup (request_timer s t).1.timers t.token = some t ∧
    (∀ k, k ≠ t.token → mapLookup (request_timer s t).1.timers k = mapLookup s.timers k) ∧
    nodupKeys (request_timer s t).1.timers ∧
    (request_timer s t).1.window_handles = s.window_handles := by
  have ht : (request_timer s t).1.timers = mapInsert s.timers t.token t := rfl
  refine ⟨?_, ?_, ?_, ?_, rfl⟩
  · rw [ht]
    exact length_mapInsert_mem _ _ _ hp
  · rw [ht]
    exact mapLookup_mapInsert_self _ _ _
  · intro k hk
    rw [ht]
    exact mapLookup_mapInsert_ne _ _ _ _ hk
  · rw [ht]
    exact nodupKeys_mapInsert _ _ _ hn

/-- The replacement timer used by the C10 witness: token 2 is already
registered in the three-timer state. -/
def tNew : Timer := { token := 2, deadline := 99, action := 7 }

/-- Witness for the C10 theorem: re-registering token 2 keeps the registry
size and binds the token to the new timer. -/
theorem request_timer_replaces_witness :
    ((request_timer stA tNew).1.timers).length = stA.timers.length ∧
    mapLookup (request_timer stA tNew).1.timers tNew.token = some tNew :=
  ⟨(request_timer_replaces stA tNew (by decide) (by decide)).1,
   (request_timer_replaces stA tNew (by decide) (by decide)).2.1⟩

end Floem
